import Mathlib

/-!
A shallow embedding of the redmine-summary Cloudflare worker
(src/redmine.js, src/openai.js, worker entry point) and proofs about its
aggregation, grouping, ordering and rendering pipeline.

Modelling conventions:
  - JavaScript numbers used as hours are modelled as exact rationals.
  - JavaScript objects used as maps keyed by numeric issue ids are modelled
    as association lists kept in ascending key order, matching the
    ECMAScript enumeration order of array-index-like keys.
  - JavaScript objects keyed by tracker-name strings are modelled as
    association lists in insertion order, matching the ECMAScript
    enumeration order of non-index string keys.
  - Network calls are modelled by passing their results as parameters; a
    failed issue lookup is the resolver returning none.
-/

/-! ## Numeral rendering (numberToChinese in src/redmine.js) -/

/-- The digit table `chineseDigits` of numberToChinese. -/
def chineseDigits : List String := ["零", "一", "二", "三", "四", "五", "六", "七", "八", "九"]

/-- The place-multiplier table `units` of numberToChinese. Indexing past the
end in JavaScript yields `undefined`, which string concatenation renders as
"undefined"; lookups therefore default to "undefined". -/
def units : List String := ["", "十", "百", "千", "万", "亿"]

/-- Structural helper for jsDigits: the first argument is a fuel bound that
dominates the number of loop iterations, so that the definition is
structurally recursive and evaluates by kernel reduction. -/
def jsDigitsAux : Nat → Nat → List Nat
  | _, 0 => []
  | 0, _ + 1 => []
  | fuel + 1, n + 1 => (n + 1) % 10 :: jsDigitsAux fuel ((n + 1) / 10)

/-- The digit-extraction loop of numberToChinese:
`while (num > 0) { parts.push(num % 10); num = Math.floor(num / 10); }`,
producing the base-10 digits least-significant first. The fuel n is enough
for every iteration; `jsDigits_eq` certifies the loop equation. -/
def jsDigits (n : Nat) : List Nat := jsDigitsAux n n

/-- The main digit loop of numberToChinese: walks the digits
least-significant first with index i, counting zero digits in zeroCount and
prepending to the accumulator. On a non-zero digit it first prepends a
single 零 when zeroCount is positive, then prepends digit word and place
multiplier. -/
def chineseLoop : List Nat → Nat → Nat → String → String
  | [], _, _, acc => acc
  | d :: rest, i, zeroCount, acc =>
    if d = 0 then
      chineseLoop rest (i + 1) (zeroCount + 1) acc
    else
      chineseLoop rest (i + 1) 0
        (chineseDigits.getD d "undefined" ++ units.getD i "undefined" ++
          (if 0 < zeroCount then "零" ++ acc else acc))

/-- numberToChinese from src/redmine.js: numbers below ten use the digit
table directly; otherwise the digit loop builds the numeral and a leading
一十 is contracted to 十. The startsWith("一十") test and the substring(1)
call are modelled on the character list: every character involved is a
single UTF-16 code unit, so substring(1) drops exactly one character. -/
def numberToChinese (num : Nat) : String :=
  if num < 10 then chineseDigits.getD num "undefined"
  else
    let chineseNum := chineseLoop (jsDigits num) 0 0 ""
    if chineseNum.data.take 2 = ['一', '十'] then String.mk (chineseNum.data.drop 1)
    else chineseNum

/-! ## Data model -/

/-- A raw time entry as consumed from the Redmine time_entries response:
`entry.issue.id`, `entry.hours`, `entry.comments`. Hours are modelled as
exact rationals; a missing comment is the empty string (both are falsy in
the JavaScript truthiness tests the code uses). -/
structure RawEntry where
  issue_id : Nat
  hours : ℚ
  comments : String
deriving DecidableEq, Repr

/-- One per-entry record pushed into the `entries` array of an issue by the
aggregation loop: `{ hours: entry.hours, comment: entry.comments }`. -/
structure Entry where
  hours : ℚ
  comment : String
deriving DecidableEq, Repr

/-- An aggregated per-issue record. fetchIssuesById creates it with
`issue_id`, `subject` and `type` (the tracker name); the aggregation loop
then adds `entries` and `hours`, which the JavaScript leaves absent until
first touched — absent `entries` behaves as the empty list and absent
`hours` as 0 via the `(issuesMap[issueId].hours || 0)` guard, so the model
initialises them to `[]` and `0`. -/
structure AggIssue where
  issue_id : Nat
  subject : String
  type : String
  entries : List Entry
  hours : ℚ
deriving DecidableEq, Repr

/-- The JavaScript object keyed by numeric issue id, modelled as an
association list kept in ascending key order — the order in which
ECMAScript enumerates array-index-like keys for `Object.values` and
friends. -/
abbrev IssuesMap := List (Nat × AggIssue)

/-- Key lookup in the issues map (JavaScript `issuesMap[id]`). -/
def lookupId : IssuesMap → Nat → Option AggIssue
  | [], _ => none
  | (k, v) :: rest, id => if id = k then some v else lookupId rest id

/-- Insertion of a fresh key into the issues map. ECMAScript stores an
array-index-like key in ascending numeric position, so the model inserts in
key order; assigning an existing key overwrites in place (the dedup guard
in fetchIssuesById prevents that case from arising). -/
def insertIssue : IssuesMap → Nat → AggIssue → IssuesMap
  | [], id, v => [(id, v)]
  | (k, w) :: rest, id, v =>
    if id < k then (id, v) :: (k, w) :: rest
    else if id = k then (id, v) :: rest
    else (k, w) :: insertIssue rest id v

/-! ## fetchIssuesById (src/redmine.js) -/

/-- fetchIssuesById from src/redmine.js. The per-id network lookup is
modelled by `resolve`, returning the subject and the tracker name for ids
the remote can resolve. For an unresolvable id the JavaScript evaluates
`res.issue.subject` on an undefined `res.issue` and throws; the model
returns that id as the error. The `if (ret[id]) continue` dedup guard asks
each distinct id at most once. -/
def fetchIssuesById (resolve : Nat → Option (String × String)) :
    List Nat → IssuesMap → Except Nat IssuesMap
  | [], ret => .ok ret
  | id :: rest, ret =>
    if (lookupId ret id).isSome then fetchIssuesById resolve rest ret
    else
      match resolve id with
      | none => .error id
      | some (subj, ty) =>
          fetchIssuesById resolve rest (insertIssue ret id ⟨id, subj, ty, [], 0⟩)

/-! ## The aggregation loop of fetchTimeEntries -/

/-- The body of the `entries.forEach` aggregation loop, applied to the
record stored under the issue id of the entry: push the hours and comment when
`entry.comments` is truthy (a non-empty string), and accumulate hours. -/
def applyEntry (e : RawEntry) (a : AggIssue) : AggIssue :=
  { a with
    entries := if e.comments = "" then a.entries else a.entries ++ [⟨e.hours, e.comments⟩]
    hours := a.hours + e.hours }

/-- Pointwise update of the record stored under a key (the JavaScript
mutation `issuesMap[issueId] = ...`); keys are unique in every map the
pipeline builds. -/
def updateIssue (m : IssuesMap) (id : Nat) (f : AggIssue → AggIssue) : IssuesMap :=
  m.map fun p => if p.1 = id then (p.1, f p.2) else p

/-- The whole `entries.forEach(...)` aggregation pass. -/
def aggregateEntries (m : IssuesMap) (entries : List RawEntry) : IssuesMap :=
  entries.foldl (fun m e => updateIssue m e.issue_id (applyEntry e)) m

/-! ## The final sort of fetchTimeEntries -/

/-- The comparator passed to `issuesList.sort`:
`(a, b) => { if (a.type === b.type) return a.hours > b.hours; return a.type > b.type; }`.
It returns a boolean, which ECMAScript coerces to 0 or 1 — it never returns
a negative number. -/
def issuesListCompare (a b : AggIssue) : Int :=
  if a.type = b.type then (if b.hours < a.hours then 1 else 0)
  else (if b.type < a.type then 1 else 0)

/-- The call `issuesList.sort(issuesListCompare)` as executed by the V8 runtime the
worker runs on. Because the comparator never returns a negative value, the
TimSort run detection classifies the entire array as one ascending run and
the sort returns the array unchanged, so the call is the identity. -/
def jsSortIssuesList (l : List AggIssue) : List AggIssue := l

/-! ## fetchTimeEntries (src/redmine.js) -/

/-- fetchTimeEntries from src/redmine.js, starting from the raw
`res.time_entries` array (the network fetch and JSON decoding are external
collaborators): resolve the referenced issue ids, run the aggregation loop,
take `Object.values`, and sort with the boolean comparator. -/
def fetchTimeEntries (resolve : Nat → Option (String × String))
    (entries : List RawEntry) : Except Nat (List AggIssue) :=
  match fetchIssuesById resolve (entries.map RawEntry.issue_id) [] with
  | .error id => .error id
  | .ok issuesMap =>
      .ok (jsSortIssuesList ((aggregateEntries issuesMap entries).map Prod.snd))

/-! ## The grouping step of renderWeeklyHTML (timeEntriesToGroup) -/

/-- One iteration of the grouping loop: append the item to its tracker-type
group, creating the group at the end when the type is seen for the first
time. The JavaScript object keyed by tracker-name strings enumerates its
keys in insertion order (tracker names are not array-index-like keys). -/
def pushGroup : List (String × List AggIssue) → String → AggIssue → List (String × List AggIssue)
  | [], ty, item => [(ty, [item])]
  | (t, l) :: rest, ty, item =>
    if t = ty then (t, l ++ [item]) :: rest
    else (t, l) :: pushGroup rest ty item

/-- timeEntriesToGroup from src/redmine.js: group the aggregated issues by
tracker type, keys in first-encounter order. -/
def timeEntriesToGroup (list : List AggIssue) : List (String × List AggIssue) :=
  list.foldl (fun g item => pushGroup g item.type item) []

/-- The distinct tracker types of the input in first-encounter order — the
specification-side description of the key enumeration order. -/
def firstEncounteredTypes (list : List AggIssue) : List String :=
  list.foldl (fun acc a => if a.type ∈ acc then acc else acc ++ [a.type]) []

/-! ## The per-group sort of renderWeeklyHTML -/

/-- The order used by `entries.sort((a, b) => a.issue_id - b.issue_id)`. -/
def issueIdLE (a b : AggIssue) : Prop := a.issue_id ≤ b.issue_id

instance : DecidableRel issueIdLE := fun a b => Nat.decLe a.issue_id b.issue_id

instance : IsTotal AggIssue issueIdLE := ⟨fun a b => Nat.le_total a.issue_id b.issue_id⟩

instance : IsTrans AggIssue issueIdLE := ⟨fun _ _ _ h₁ h₂ => Nat.le_trans h₁ h₂⟩

/-- The call `entries.sort((a, b) => a.issue_id - b.issue_id)`: a stable ascending
sort by issue id, modelled by stable insertion sort. -/
def sortByIssueId (l : List AggIssue) : List AggIssue := List.insertionSort issueIdLE l

/-! ## Rendering (renderWeeklyHTML in src/redmine.js) -/

/-- The inner comment loop: `j` counts only entries whose comment is truthy
(non-empty), and each such comment is emitted as a list item prefixed with
its 1-based count. -/
def renderCommentItems : List Entry → Nat → String
  | [], _ => ""
  | e :: rest, j =>
    if e.comment = "" then renderCommentItems rest j
    else "<li>" ++ toString (j + 1) ++ ". " ++ e.comment ++ "</li>\n" ++
      renderCommentItems rest (j + 1)

/-- The issue loop of renderWeeklyHTML: the i-th issue (0-based) is emitted
with the localized ordinal numberToChinese (i + 1), its subject and id, and,
when its entries array is non-empty, a nested list of its comments. -/
def renderIssueItems : List AggIssue → Nat → String
  | [], _ => ""
  | item :: rest, i =>
    "<li><h5>" ++ numberToChinese (i + 1) ++ ". " ++ item.subject ++ " (issue: " ++
        toString item.issue_id ++ ")</h5></li>\n" ++
      (if item.entries.length > 0 then "<ul>\n" ++ renderCommentItems item.entries 0 ++ "</ul>\n"
       else "") ++
      renderIssueItems rest (i + 1)

/-- renderWeeklyHTML from src/redmine.js: group by type, then per group emit
a heading and the issue list sorted ascending by issue id. -/
def renderWeeklyHTML (list : List AggIssue) : String :=
  (timeEntriesToGroup list).foldl
    (fun html g =>
      html ++ "<h4>" ++ g.1 ++ "</h4>\n" ++ "<ul>\n" ++
        renderIssueItems (sortByIssueId g.2) 0 ++ "</ul>\n")
    ""

/-! ## handleSummaryRequest and the worker entry point -/

/-- The fixed reply substituted when the rendered report is empty. -/
def noWorkMessage : String := "小老弟，你这周没干活啊？"

/-- The message of the TypeError the worker surfaces when an issue id
cannot be resolved: fetchIssuesById evaluates `res.issue.subject` with
`res.issue` undefined, the exception propagates out of fetchTimeEntries,
and the catch block in handleSummaryRequest returns `e.message` (V8
wording). -/
def issueNotFoundMessage : String :=
  "Cannot read properties of undefined (reading \x27subject\x27)"

/-- handleSummaryRequest from src/index.js. The Redmine and OpenAI network
interactions are modelled by `resolve` and `entries` (what the time-entry
fetch returned), `aiConfigured` (whether AI_ENDPOINT, AI_API_KEY and
AI_API_MODEL are all set) and `summaryResult` (how the sendOpenAIRequest
promise settled). A rejected summary promise is caught and replaced by the
empty string, which is falsy and therefore never appended; a fulfilled one
is wrapped in a p element first. -/
def handleSummaryRequest (resolve : Nat → Option (String × String))
    (entries : List RawEntry) (aiConfigured : Bool)
    (summaryResult : Except Unit String) : String :=
  match fetchTimeEntries resolve entries with
  | .error _ => issueNotFoundMessage
  | .ok issuesList =>
      let html := renderWeeklyHTML issuesList
      if html.length = 0 then noWorkMessage
      else if aiConfigured then
        match summaryResult with
        | .error _ => html
        | .ok s =>
            let summary := "<p>" ++ s ++ "</p>"
            if summary.length = 0 then html else html ++ summary
      else html

/-- The worker fetch handler of src/index.js for one request: a POST is
answered with the handleSummaryRequest result as body and a hard-coded
status 500; any other method is answered with the substituted HTML template
page (modelled opaquely by `homePage`) and the default status 200. -/
def workerFetch (method : String) (handlerBody : String) (homePage : String) :
    Nat × String :=
  if method = "POST" then (500, handlerBody) else (200, homePage)

/-! ## thisWeekTimeRange (src/redmine.js) -/

/-- A JavaScript Date, reduced to what thisWeekTimeRange observes: the UTC
calendar day (as a day number with day 0 a Thursday, like the Unix epoch)
and the time of day. The worker runtime runs with UTC as local time, so
getDay/setDate and toISOString agree on the day. -/
structure JSDate where
  day : Int
  msOfDay : Nat
deriving DecidableEq, Repr

/-- The method `date.getDay()`: 0 for Sunday … 6 for Saturday. Day 0 (1970-01-01) was
a Thursday, hence the offset 4. -/
def JSDate.getDay (d : JSDate) : Int := (d.day + 4) % 7

/-- The idiom `new Date(date.setDate(date.getDate() + k))`: shifting the day-of-month
field rolls over months automatically, so on day numbers it is plain
addition; the time of day is preserved. -/
def JSDate.addDays (d : JSDate) (k : Int) : JSDate := { d with day := d.day + k }

/-- The expression `date.toISOString().split("T")[0]`: the date-only part of the ISO
timestamp, i.e. the calendar day with the time of day discarded. -/
def JSDate.isoDate (d : JSDate) : Int := d.day

/-- thisWeekTimeRange from src/redmine.js: `today.setDate(...)` mutates
today in place, so the Saturday is computed from the already-shifted
Sunday. -/
def thisWeekTimeRange (today : JSDate) : Int × Int :=
  let sundayOfThisWeek := today.addDays (-today.getDay)
  let saturdayOfThisWeek := sundayOfThisWeek.addDays 6
  (sundayOfThisWeek.isoDate, saturdayOfThisWeek.isoDate)

/-! ## Invariants of the issues map -/

/-- The keys of the modelled JavaScript object are in strictly ascending
order (ECMAScript array-index-like key enumeration). -/
def KeysSorted (m : IssuesMap) : Prop := (m.map Prod.fst).Pairwise (· < ·)

/-- The keys of the map are pairwise distinct. -/
def KeysNodup (m : IssuesMap) : Prop := (m.map Prod.fst).Nodup

/-- The total of the hours fields over all stored records. -/
def sumHours (m : IssuesMap) : ℚ := (m.map fun p => p.2.hours).sum

/-- The ordering the specification asserts for the aggregation-stage
output: by category (tracker type) first, ties broken by ascending total
hours. Modelled from the specification wording, to be compared with what
fetchTimeEntries actually returns. -/
def specAggregatorOrdered (l : List AggIssue) : Prop :=
  l.Pairwise fun a b => a.type < b.type ∨ (a.type = b.type ∧ a.hours ≤ b.hours)

/-! ## Lemmas -/

theorem jsDigitsAux_fuel {fuel n : Nat} (h : n ≤ fuel) : jsDigitsAux fuel n = jsDigits n := by
  induction n using Nat.strong_induction_on generalizing fuel with
  | _ n ih =>
    match n, fuel with
    | 0, fuel => cases fuel <;> rfl
    | m + 1, 0 => omega
    | m + 1, fuel + 1 =>
      have hdiv : (m + 1) / 10 < m + 1 := Nat.div_lt_self (Nat.succ_pos m) (by norm_num)
      show (m + 1) % 10 :: jsDigitsAux fuel ((m + 1) / 10)
          = (m + 1) % 10 :: jsDigitsAux m ((m + 1) / 10)
      rw [ih _ hdiv (by omega), ih _ hdiv (by omega)]

/-- The loop equation of the JavaScript digit-extraction while loop. -/
theorem jsDigits_eq (n : Nat) :
    jsDigits n = if n = 0 then [] else n % 10 :: jsDigits (n / 10) := by
  match n with
  | 0 => rfl
  | m + 1 =>
    have hdiv : (m + 1) / 10 ≤ m := by
      have := Nat.div_lt_self (Nat.succ_pos m) (show 1 < 10 by norm_num)
      omega
    simp only [if_neg (Nat.succ_ne_zero m)]
    show (m + 1) % 10 :: jsDigitsAux m ((m + 1) / 10) = _
    rw [jsDigitsAux_fuel hdiv]

/-- The comparator never returns a negative value — the fact that makes
`jsSortIssuesList` the identity under TimSort run detection. -/
theorem issuesListCompare_nonneg (a b : AggIssue) : 0 ≤ issuesListCompare a b := by
  unfold issuesListCompare
  split <;> split <;> norm_num

theorem KeysSorted.nodup {m : IssuesMap} (h : KeysSorted m) : KeysNodup m :=
  h.imp Nat.ne_of_lt

theorem lookupId_insertIssue (m : IssuesMap) (id : Nat) (v : AggIssue) (j : Nat) :
    lookupId (insertIssue m id v) j = if j = id then some v else lookupId m j := by
  induction m with
  | nil => simp [insertIssue, lookupId]
  | cons p rest ih =>
    obtain ⟨k, w⟩ := p
    rcases Nat.lt_trichotomy id k with h1 | h1 | h1
    · rw [insertIssue, if_pos h1]
      simp only [lookupId]
    · subst h1
      by_cases hj : j = id
      · subst hj
        simp [insertIssue, lookupId, Nat.lt_irrefl]
      · simp [insertIssue, lookupId, Nat.lt_irrefl, hj]
    · have hn1 : ¬ id < k := by omega
      have hn2 : ¬ id = k := by omega
      simp only [insertIssue, if_neg hn1, if_neg hn2, lookupId, ih]
      by_cases hj2 : j = id
      · rw [if_pos hj2, if_neg (show ¬ j = k by omega), if_pos hj2]
      · rw [if_neg hj2]
        by_cases hj : j = k
        · rw [if_neg hj2]
        · rw [if_neg hj2]

theorem mem_keys_insertIssue {m : IssuesMap} {id x : Nat} {v : AggIssue} :
    x ∈ (insertIssue m id v).map Prod.fst ↔ x = id ∨ x ∈ m.map Prod.fst := by
  induction m with
  | nil => simp [insertIssue]
  | cons p rest ih =>
    obtain ⟨k, w⟩ := p
    rcases Nat.lt_trichotomy id k with h1 | h1 | h1
    · rw [insertIssue, if_pos h1]
      simp
    · subst h1
      simp [insertIssue, Nat.lt_irrefl]
    · have hn1 : ¬ id < k := by omega
      have hn2 : ¬ id = k := by omega
      rw [insertIssue, if_neg hn1, if_neg hn2]
      simp [ih]
      tauto

theorem mem_insertIssue {m : IssuesMap} {id : Nat} {v : AggIssue} {p : Nat × AggIssue}
    (h : p ∈ insertIssue m id v) : p = (id, v) ∨ p ∈ m := by
  induction m with
  | nil => simpa [insertIssue] using h
  | cons q rest ih =>
    obtain ⟨k, w⟩ := q
    rcases Nat.lt_trichotomy id k with h1 | h1 | h1
    · rw [insertIssue, if_pos h1] at h
      rcases List.mem_cons.mp h with h2 | h2
      · exact Or.inl h2
      · exact Or.inr h2
    · subst h1
      rw [insertIssue, if_neg (Nat.lt_irrefl id), if_pos rfl] at h
      rcases List.mem_cons.mp h with h2 | h2
      · exact Or.inl h2
      · exact Or.inr (List.mem_cons_of_mem _ h2)
    · have hn1 : ¬ id < k := by omega
      have hn2 : ¬ id = k := by omega
      rw [insertIssue, if_neg hn1, if_neg hn2] at h
      rcases List.mem_cons.mp h with h2 | h2
      · exact Or.inr (by simp [h2])
      · rcases ih h2 with h3 | h3
        · exact Or.inl h3
        · exact Or.inr (List.mem_cons_of_mem _ h3)

theorem keysSorted_insertIssue {m : IssuesMap} {id : Nat} {v : AggIssue}
    (hs : KeysSorted m) (hnone : lookupId m id = none) : KeysSorted (insertIssue m id v) := by
  induction m with
  | nil => simp [KeysSorted, insertIssue]
  | cons p rest ih =>
    obtain ⟨k, w⟩ := p
    simp only [KeysSorted, List.map_cons, List.pairwise_cons] at hs
    obtain ⟨hk, hrest⟩ := hs
    simp only [lookupId] at hnone
    by_cases h2 : id = k
    · simp [if_pos h2] at hnone
    · rw [if_neg h2] at hnone
      by_cases h1 : id < k
      · rw [KeysSorted, insertIssue, if_pos h1]
        simp only [List.map_cons, List.pairwise_cons]
        refine ⟨?_, hk, hrest⟩
        intro x hx
        rcases List.mem_cons.mp hx with hx | hx
        · omega
        · exact Nat.lt_trans h1 (hk x hx)
      · rw [KeysSorted, insertIssue, if_neg h1, if_neg h2]
        simp only [List.map_cons, List.pairwise_cons]
        refine ⟨?_, ih hrest hnone⟩
        intro x hx
        rcases mem_keys_insertIssue.mp hx with hx | hx
        · omega
        · exact hk x hx

theorem lookupId_some_mem {m : IssuesMap} {id : Nat} {v : AggIssue}
    (h : lookupId m id = some v) : (id, v) ∈ m := by
  induction m with
  | nil => simp [lookupId] at h
  | cons p rest ih =>
    obtain ⟨k, w⟩ := p
    by_cases hk : id = k
    · subst hk
      simp [lookupId] at h
      simp [h]
    · rw [lookupId, if_neg hk] at h
      exact List.mem_cons_of_mem _ (ih h)

theorem lookupId_of_mem_values {m : IssuesMap} {a : AggIssue}
    (hnd : KeysNodup m) (hids : ∀ p ∈ m, p.2.issue_id = p.1)
    (ha : a ∈ m.map Prod.snd) : lookupId m a.issue_id = some a := by
  induction m with
  | nil => simp at ha
  | cons p rest ih =>
    obtain ⟨k, w⟩ := p
    simp only [KeysNodup, List.map_cons, List.nodup_cons] at hnd
    obtain ⟨hknot, hndrest⟩ := hnd
    simp only [List.map_cons, List.mem_cons] at ha
    rcases ha with ha | ha
    · subst ha
      have : a.issue_id = k := hids (k, a) (by simp)
      simp [lookupId, this]
    · obtain ⟨q, hq, hqa⟩ := List.mem_map.mp ha
      have hqid : q.2.issue_id = q.1 := hids q (List.mem_cons_of_mem _ hq)
      have hq1 : q.1 = a.issue_id := by rw [← hqid, hqa]
      have hmemk : a.issue_id ∈ rest.map Prod.fst := hq1 ▸ List.mem_map_of_mem Prod.fst hq
      have hne : a.issue_id ≠ k := fun hc => hknot (hc ▸ hmemk)
      rw [lookupId, if_neg hne]
      exact ih hndrest (fun p hp => hids p (List.mem_cons_of_mem _ hp)) ha

/-- Combined invariant of the fetchIssuesById recursion: on success the key
order stays strict, every stored record satisfies a property preserved by
insertion of fresh records, presence of keys is monotone, and every
requested id ends up present. -/
theorem fetchIssuesById_ok_inv (resolve : Nat → Option (String × String))
    (P : Nat × AggIssue → Prop)
    (hP : ∀ id subj ty, resolve id = some (subj, ty) → P (id, ⟨id, subj, ty, [], 0⟩)) :
    ∀ (ids : List Nat) (m m' : IssuesMap),
      fetchIssuesById resolve ids m = .ok m' →
      KeysSorted m → (∀ p ∈ m, P p) →
      KeysSorted m' ∧ (∀ p ∈ m', P p) ∧
        (∀ j, (lookupId m j).isSome → (lookupId m' j).isSome) ∧
        (∀ id ∈ ids, (lookupId m' id).isSome) := by
  intro ids
  induction ids with
  | nil =>
    intro m m' h hs hp
    simp only [fetchIssuesById] at h
    cases h
    exact ⟨hs, hp, fun j hj => hj, by simp⟩
  | cons id rest ih =>
    intro m m' h hs hp
    rw [fetchIssuesById] at h
    by_cases hsome : (lookupId m id).isSome
    · rw [if_pos hsome] at h
      obtain ⟨hs', hp', hmono, hall⟩ := ih m m' h hs hp
      refine ⟨hs', hp', hmono, ?_⟩
      intro i hi
      rcases List.mem_cons.mp hi with hi | hi
      · exact hi ▸ hmono id hsome
      · exact hall i hi
    · rw [if_neg hsome] at h
      cases hres : resolve id with
      | none => rw [hres] at h; cases h
      | some st =>
        obtain ⟨subj, ty⟩ := st
        rw [hres] at h
        have hnone : lookupId m id = none := Option.not_isSome_iff_eq_none.mp hsome
        have hs₂ : KeysSorted (insertIssue m id ⟨id, subj, ty, [], 0⟩) :=
          keysSorted_insertIssue hs hnone
        have hp₂ : ∀ p ∈ insertIssue m id ⟨id, subj, ty, [], 0⟩, P p := by
          intro p hmem
          rcases mem_insertIssue hmem with hm | hm
          · exact hm ▸ hP id subj ty hres
          · exact hp p hm
        obtain ⟨hs', hp', hmono, hall⟩ := ih _ m' h hs₂ hp₂
        have hmono₂ : ∀ j, (lookupId m j).isSome → (lookupId m' j).isSome := by
          intro j hj
          apply hmono
          rw [lookupId_insertIssue]
          by_cases hji : j = id
          · simp [hji]
          · rwa [if_neg hji]
        refine ⟨hs', hp', hmono₂, ?_⟩
        intro i hi
        rcases List.mem_cons.mp hi with hi | hi
        · subst hi
          apply hmono
          rw [lookupId_insertIssue, if_pos rfl]
          rfl
        · exact hall i hi

/-- If some requested id is unresolvable and every key already present is
resolvable, fetchIssuesById throws: it returns an error carrying some
unresolvable requested id. -/
theorem fetchIssuesById_error (resolve : Nat → Option (String × String)) :
    ∀ (ids : List Nat) (m : IssuesMap),
      (∀ j, (lookupId m j).isSome → (resolve j).isSome) →
      (∃ id ∈ ids, resolve id = none) →
      ∃ j ∈ ids, resolve j = none ∧ fetchIssuesById resolve ids m = .error j := by
  intro ids
  induction ids with
  | nil =>
    intro m _ h
    simp at h
  | cons id rest ih =>
    intro m hm h
    by_cases hsome : (lookupId m id).isSome
    · have hidres : (resolve id).isSome := hm id hsome
      obtain ⟨i, hi, hires⟩ := h
      have hirest : i ∈ rest := by
        rcases List.mem_cons.mp hi with hii | hii
        · exfalso
          rw [hii] at hires
          rw [hires] at hidres
          simp at hidres
        · exact hii
      obtain ⟨j, hj, hjres, heq⟩ := ih m hm ⟨i, hirest, hires⟩
      refine ⟨j, List.mem_cons_of_mem _ hj, hjres, ?_⟩
      rw [fetchIssuesById, if_pos hsome]
      exact heq
    · cases hres : resolve id with
      | none =>
        refine ⟨id, by simp, hres, ?_⟩
        rw [fetchIssuesById, if_neg hsome, hres]
      | some st =>
        obtain ⟨subj, ty⟩ := st
        obtain ⟨i, hi, hires⟩ := h
        have hirest : i ∈ rest := by
          rcases List.mem_cons.mp hi with hii | hii
          · exfalso
            rw [hii] at hires
            rw [hres] at hires
            exact Option.noConfusion hires
          · exact hii
        have hm₂ : ∀ j, (lookupId (insertIssue m id ⟨id, subj, ty, [], 0⟩) j).isSome →
            (resolve j).isSome := by
          intro j hj
          rw [lookupId_insertIssue] at hj
          by_cases hji : j = id
          · rw [hji, hres]
            rfl
          · rw [if_neg hji] at hj
            exact hm j hj
        obtain ⟨j, hj, hjres, heq⟩ := ih _ hm₂ ⟨i, hirest, hires⟩
        refine ⟨j, List.mem_cons_of_mem _ hj, hjres, ?_⟩
        rw [fetchIssuesById, if_neg hsome, hres]
        exact heq

theorem updateIssue_cons (k : Nat) (w : AggIssue) (rest : IssuesMap) (id : Nat)
    (f : AggIssue → AggIssue) :
    updateIssue ((k, w) :: rest) id f
      = (k, if k = id then f w else w) :: updateIssue rest id f := by
  by_cases hk : k = id <;> simp [updateIssue, hk]

theorem sumHours_cons (k : Nat) (w : AggIssue) (rest : IssuesMap) :
    sumHours ((k, w) :: rest) = w.hours + sumHours rest := by
  simp [sumHours]

theorem keys_updateIssue (m : IssuesMap) (id : Nat) (f : AggIssue → AggIssue) :
    (updateIssue m id f).map Prod.fst = m.map Prod.fst := by
  induction m with
  | nil => rfl
  | cons p rest ih =>
    obtain ⟨k, w⟩ := p
    rw [updateIssue_cons]
    simp only [List.map_cons, ih]

theorem lookupId_updateIssue (m : IssuesMap) (id : Nat) (f : AggIssue → AggIssue) (j : Nat) :
    lookupId (updateIssue m id f) j
      = (lookupId m j).map (fun v => if j = id then f v else v) := by
  induction m with
  | nil => rfl
  | cons p rest ih =>
    obtain ⟨k, w⟩ := p
    rw [updateIssue_cons]
    by_cases hj : j = k
    · subst hj
      by_cases hk : j = id
      · subst hk
        simp [lookupId]
      · simp [lookupId, hk]
    · simp only [lookupId, if_neg hj, ih]

theorem updateIssue_of_not_mem {m : IssuesMap} {id : Nat} (f : AggIssue → AggIssue)
    (h : id ∉ m.map Prod.fst) : updateIssue m id f = m := by
  induction m with
  | nil => rfl
  | cons p rest ih =>
    obtain ⟨k, w⟩ := p
    simp only [List.map_cons, List.mem_cons] at h
    push_neg at h
    obtain ⟨hk, hrest⟩ := h
    rw [updateIssue_cons, if_neg (Ne.symm hk), ih hrest]

theorem sumHours_updateIssue {m : IssuesMap} {id : Nat} (e : RawEntry)
    (hnd : KeysNodup m) (hsome : (lookupId m id).isSome) :
    sumHours (updateIssue m id (applyEntry e)) = sumHours m + e.hours := by
  induction m with
  | nil => simp [lookupId] at hsome
  | cons p rest ih =>
    obtain ⟨k, w⟩ := p
    simp only [KeysNodup, List.map_cons, List.nodup_cons] at hnd
    obtain ⟨hknot, hndrest⟩ := hnd
    rw [updateIssue_cons]
    by_cases hk : k = id
    · subst hk
      rw [if_pos rfl, updateIssue_of_not_mem _ hknot, sumHours_cons, sumHours_cons]
      show (applyEntry e w).hours + sumHours rest = w.hours + sumHours rest + e.hours
      simp only [applyEntry]
      ring
    · rw [if_neg hk]
      have hsome' : (lookupId rest id).isSome := by
        have hji : ¬ id = k := fun hc => hk hc.symm
        rw [lookupId, if_neg hji] at hsome
        exact hsome
      rw [sumHours_cons, sumHours_cons, ih hndrest hsome']
      ring

theorem keys_aggregateEntries (entries : List RawEntry) :
    ∀ m : IssuesMap, (aggregateEntries m entries).map Prod.fst = m.map Prod.fst := by
  induction entries with
  | nil => intro m; rfl
  | cons e rest ih =>
    intro m
    show (aggregateEntries (updateIssue m e.issue_id (applyEntry e)) rest).map Prod.fst = _
    rw [ih, keys_updateIssue]

theorem lookupId_aggregateEntries (entries : List RawEntry) :
    ∀ (m : IssuesMap) (j : Nat),
      lookupId (aggregateEntries m entries) j
        = (lookupId m j).map
            (fun a => (entries.filter (fun e => e.issue_id == j)).foldl
              (fun a e => applyEntry e a) a) := by
  induction entries with
  | nil =>
    intro m j
    show lookupId m j = _
    cases lookupId m j <;> simp
  | cons e rest ih =>
    intro m j
    show lookupId (aggregateEntries (updateIssue m e.issue_id (applyEntry e)) rest) j = _
    rw [ih, lookupId_updateIssue]
    cases hm : lookupId m j with
    | none => simp
    | some a =>
      simp only [Option.map_some']
      by_cases hj : j = e.issue_id
      · have hbeq : (e.issue_id == j) = true := by simp [hj]
        simp [List.filter_cons, hbeq, hj]
      · have hbeq : (e.issue_id == j) = false := by
          simp only [beq_eq_false_iff_ne, ne_eq]
          exact fun hc => hj hc.symm
        simp [List.filter_cons, hbeq, hj]

theorem sumHours_aggregateEntries (entries : List RawEntry) :
    ∀ m : IssuesMap, KeysNodup m →
      (∀ e ∈ entries, (lookupId m e.issue_id).isSome) →
      sumHours (aggregateEntries m entries) = sumHours m + (entries.map RawEntry.hours).sum := by
  induction entries with
  | nil =>
    intro m _ _
    show sumHours m = _
    simp
  | cons e rest ih =>
    intro m hnd hpresent
    show sumHours (aggregateEntries (updateIssue m e.issue_id (applyEntry e)) rest) = _
    have hnd₂ : KeysNodup (updateIssue m e.issue_id (applyEntry e)) := by
      rw [KeysNodup, keys_updateIssue]
      exact hnd
    have hpresent₂ : ∀ x ∈ rest, (lookupId (updateIssue m e.issue_id (applyEntry e)) x.issue_id).isSome := by
      intro x hx
      rw [lookupId_updateIssue]
      have := hpresent x (List.mem_cons_of_mem _ hx)
      cases hm : lookupId m x.issue_id with
      | none => rw [hm] at this; simp at this
      | some a => simp
    rw [ih _ hnd₂ hpresent₂, sumHours_updateIssue e hnd (hpresent e (List.mem_cons_self e rest))]
    simp only [List.map_cons, List.sum_cons]
    ring

theorem aggregateEntries_preserves_ids (entries : List RawEntry) :
    ∀ m : IssuesMap, (∀ p ∈ m, p.2.issue_id = p.1) →
      ∀ p ∈ aggregateEntries m entries, p.2.issue_id = p.1 := by
  induction entries with
  | nil => intro m hm; exact hm
  | cons e rest ih =>
    intro m hm
    apply ih
    intro p hp
    simp only [updateIssue, List.mem_map] at hp
    obtain ⟨q, hq, hpq⟩ := hp
    by_cases hk : q.1 = e.issue_id
    · rw [if_pos hk] at hpq
      rw [← hpq]
      show (applyEntry e q.2).issue_id = q.1
      exact hm q hq
    · rw [if_neg hk] at hpq
      rw [← hpq]
      exact hm q hq

theorem foldl_applyEntry_entries (es : List RawEntry) :
    ∀ a : AggIssue,
      (es.foldl (fun a e => applyEntry e a) a).entries
        = a.entries ++ (es.filter (fun e => !(e.comments == ""))).map
            (fun e => ⟨e.hours, e.comments⟩) := by
  induction es with
  | nil => intro a; simp
  | cons e rest ih =>
    intro a
    rw [List.foldl_cons, ih]
    by_cases hc : e.comments = ""
    · have hbeq : (!(e.comments == "")) = false := by simp [hc]
      simp only [applyEntry, if_pos hc, List.filter_cons, hbeq, Bool.false_eq_true, ite_false]
    · have hbeq : (!(e.comments == "")) = true := by simp [hc]
      simp [applyEntry, if_neg hc, List.filter_cons, hbeq]

theorem pushGroup_map_fst (g : List (String × List AggIssue)) (ty : String) (a : AggIssue) :
    (pushGroup g ty a).map Prod.fst
      = if ty ∈ g.map Prod.fst then g.map Prod.fst else g.map Prod.fst ++ [ty] := by
  induction g with
  | nil => simp [pushGroup]
  | cons p rest ih =>
    obtain ⟨t, l⟩ := p
    by_cases ht : t = ty
    · subst ht
      simp [pushGroup]
    · rw [pushGroup, if_neg ht]
      simp only [List.map_cons]
      by_cases hin : ty ∈ rest.map Prod.fst
      · rw [ih, if_pos hin, if_pos (List.mem_cons_of_mem t hin)]
      · have hc : ty ∉ t :: rest.map Prod.fst := by
          intro h
          rcases List.mem_cons.mp h with h | h
          · exact ht h.symm
          · exact hin h
        rw [ih, if_neg hin, if_neg hc, List.cons_append]

theorem timeEntriesToGroup_fst (list : List AggIssue) :
    ∀ g : List (String × List AggIssue),
      (list.foldl (fun g item => pushGroup g item.type item) g).map Prod.fst
        = list.foldl (fun acc a => if a.type ∈ acc then acc else acc ++ [a.type])
            (g.map Prod.fst) := by
  induction list with
  | nil => intro g; rfl
  | cons a rest ih =>
    intro g
    rw [List.foldl_cons, List.foldl_cons, ih, pushGroup_map_fst]

theorem pushGroup_contents (a : AggIssue) :
    ∀ (g : List (String × List AggIssue)) (pref : List AggIssue),
      (g.map Prod.fst).Nodup →
      (∀ p ∈ g, p.2 = pref.filter (fun x => x.type == p.1)) →
      (a.type ∉ g.map Prod.fst → pref.filter (fun x => x.type == a.type) = []) →
      ∀ p ∈ pushGroup g a.type a, p.2 = (pref ++ [a]).filter (fun x => x.type == p.1) := by
  intro g
  induction g with
  | nil =>
    intro pref _ _ hnew p hp
    simp only [pushGroup, List.mem_singleton] at hp
    subst hp
    rw [List.filter_append, hnew (by simp)]
    simp
  | cons q rest ih =>
    intro pref hnd hcont hnew p hp
    obtain ⟨t, l⟩ := q
    simp only [List.map_cons, List.nodup_cons] at hnd
    obtain ⟨htnot, hndrest⟩ := hnd
    by_cases ht : t = a.type
    · subst ht
      rw [pushGroup, if_pos rfl] at hp
      rcases List.mem_cons.mp hp with hp | hp
      · subst hp
        have hl : l = pref.filter (fun x => x.type == a.type) :=
          hcont (a.type, l) (List.mem_cons_self _ _)
        show l ++ [a] = (pref ++ [a]).filter (fun x => x.type == a.type)
        rw [List.filter_append, ← hl]
        simp
      · have hp2 : p.2 = pref.filter (fun x => x.type == p.1) :=
          hcont p (List.mem_cons_of_mem _ hp)
        have hp1mem : p.1 ∈ rest.map Prod.fst := List.mem_map_of_mem Prod.fst hp
        have hne : (a.type == p.1) = false := by
          simp only [beq_eq_false_iff_ne, ne_eq]
          intro hc
          exact htnot (hc ▸ hp1mem)
        rw [List.filter_append, hp2]
        simp [List.filter_cons, hne]
    · rw [pushGroup, if_neg ht] at hp
      rcases List.mem_cons.mp hp with hp | hp
      · subst hp
        have hl : l = pref.filter (fun x => x.type == t) :=
          hcont (t, l) (List.mem_cons_self _ _)
        have hne : (a.type == t) = false := by
          simp only [beq_eq_false_iff_ne, ne_eq]
          exact fun hc => ht hc.symm
        show l = (pref ++ [a]).filter (fun x => x.type == t)
        rw [List.filter_append, ← hl]
        simp [List.filter_cons, hne]
      · apply ih pref hndrest
          (fun q hq => hcont q (List.mem_cons_of_mem _ hq))
          (fun hnot => hnew (by
            simp only [List.map_cons, List.mem_cons]
            rintro (hc | hc)
            · exact ht hc.symm
            · exact hnot hc))
          p hp

theorem pushGroup_complete (a : AggIssue) (g : List (String × List AggIssue))
    (pref : List AggIssue) (hcomp : ∀ x ∈ pref, x.type ∈ g.map Prod.fst) :
    ∀ x ∈ pref ++ [a], x.type ∈ (pushGroup g a.type a).map Prod.fst := by
  intro x hx
  rw [pushGroup_map_fst]
  rcases List.mem_append.mp hx with hx | hx
  · have := hcomp x hx
    by_cases hin : a.type ∈ g.map Prod.fst
    · rwa [if_pos hin]
    · rw [if_neg hin]
      exact List.mem_append_left _ this
  · simp only [List.mem_singleton] at hx
    subst hx
    by_cases hin : x.type ∈ g.map Prod.fst
    · rwa [if_pos hin]
    · rw [if_neg hin]
      simp

theorem pushGroup_nodup (a : AggIssue) (g : List (String × List AggIssue))
    (hnd : (g.map Prod.fst).Nodup) : ((pushGroup g a.type a).map Prod.fst).Nodup := by
  rw [pushGroup_map_fst]
  by_cases hin : a.type ∈ g.map Prod.fst
  · rwa [if_pos hin]
  · rw [if_neg hin, List.nodup_append]
    refine ⟨hnd, List.nodup_singleton _, ?_⟩
    intro x hx hx2
    simp only [List.mem_singleton] at hx2
    subst hx2
    exact hin hx

/-- Invariant of the grouping fold: with nodup keys, per-key contents equal
to the filter of the consumed prefix, and every consumed item represented,
the per-key contents stay the filter of the consumed input. -/
theorem timeEntriesToGroup_inv (list : List AggIssue) :
    ∀ (g : List (String × List AggIssue)) (pref : List AggIssue),
      (g.map Prod.fst).Nodup →
      (∀ p ∈ g, p.2 = pref.filter (fun x => x.type == p.1)) →
      (∀ x ∈ pref, x.type ∈ g.map Prod.fst) →
      ∀ p ∈ list.foldl (fun g item => pushGroup g item.type item) g,
        p.2 = (pref ++ list).filter (fun x => x.type == p.1) := by
  induction list with
  | nil =>
    intro g pref _ hcont _ p hp
    simpa using hcont p hp
  | cons a rest ih =>
    intro g pref hnd hcont hcomp p hp
    rw [List.foldl_cons] at hp
    have hnew : a.type ∉ g.map Prod.fst → pref.filter (fun x => x.type == a.type) = [] := by
      intro hnot
      rw [List.filter_eq_nil_iff]
      intro x hx
      simp only [beq_iff_eq]
      intro hc
      exact hnot (hc ▸ hcomp x hx)
    have := ih (pushGroup g a.type a) (pref ++ [a])
      (pushGroup_nodup a g hnd)
      (pushGroup_contents a g pref hnd hcont hnew)
      (pushGroup_complete a g pref hcomp)
      p hp
    rwa [List.append_assoc, List.singleton_append] at this

/-- Shared shape of a successful fetchTimeEntries run: the resolved map
exists, the output is its aggregated values, keys are strictly sorted,
records start blank, and every referenced id is present. -/
theorem fetchTimeEntries_ok_aggregate (resolve : Nat → Option (String × String))
    (entries : List RawEntry) (issuesList : List AggIssue)
    (h : fetchTimeEntries resolve entries = .ok issuesList) :
    ∃ m₀ : IssuesMap,
      fetchIssuesById resolve (entries.map RawEntry.issue_id) [] = .ok m₀ ∧
      issuesList = (aggregateEntries m₀ entries).map Prod.snd ∧
      KeysSorted m₀ ∧
      (∀ p ∈ m₀, p.2.issue_id = p.1 ∧ p.2.entries = [] ∧ p.2.hours = 0) ∧
      (∀ id ∈ entries.map RawEntry.issue_id, (lookupId m₀ id).isSome) := by
  cases hfi : fetchIssuesById resolve (entries.map RawEntry.issue_id) [] with
  | error id =>
    rw [fetchTimeEntries, hfi] at h
    cases h
  | ok m₀ =>
    rw [fetchTimeEntries, hfi] at h
    simp only [jsSortIssuesList, Except.ok.injEq] at h
    obtain ⟨hs, hP, _, hall⟩ := fetchIssuesById_ok_inv resolve
      (fun p => p.2.issue_id = p.1 ∧ p.2.entries = [] ∧ p.2.hours = 0)
      (fun id subj ty _ => ⟨rfl, rfl, rfl⟩)
      (entries.map RawEntry.issue_id) [] m₀ hfi
      (by simp [KeysSorted]) (by simp)
    exact ⟨m₀, rfl, h.symm, hs, hP, hall⟩

/-- Claim C1: the ordinal localization values the specification asserts.
The function agrees with the specification at 1, 11 and 101, but a trailing
zero digit makes the zero-counting loop emit a spurious 零, so 10, 20 and
100 render as 十零, 二十零 and 一百零 instead of 十, 二十 and 一百. -/
theorem numberToChinese_at_spec_points :
    numberToChinese 1 = "一" ∧ numberToChinese 11 = "十一" ∧
    numberToChinese 101 = "一百零一" ∧ numberToChinese 10 = "十零" ∧
    numberToChinese 20 = "二十零" ∧ numberToChinese 100 = "一百零" :=
  ⟨by decide, by decide, by decide, by decide, by decide, by decide⟩

/-- Claim C2: for a non-empty raw-entry sequence on which the pipeline
succeeds, the total of the aggregated per-issue hours equals the total of
the raw-entry hours. -/
theorem fetchTimeEntries_conserves_hours (resolve : Nat → Option (String × String))
    (entries : List RawEntry) (issuesList : List AggIssue)
    (hne : entries ≠ [])
    (h : fetchTimeEntries resolve entries = .ok issuesList) :
    (issuesList.map AggIssue.hours).sum = (entries.map RawEntry.hours).sum := by
  obtain ⟨m₀, hfi, hlist, hs, hP, hall⟩ := fetchTimeEntries_ok_aggregate resolve entries issuesList h
  have hpres : ∀ e ∈ entries, (lookupId m₀ e.issue_id).isSome := fun e he =>
    hall e.issue_id (List.mem_map_of_mem RawEntry.issue_id he)
  have hzero : sumHours m₀ = 0 := by
    rw [sumHours]
    apply List.sum_eq_zero
    intro x hx
    obtain ⟨p, hp, hpx⟩ := List.mem_map.mp hx
    rw [← hpx]
    exact (hP p hp).2.2
  have hsum := sumHours_aggregateEntries entries m₀ hs.nodup hpres
  rw [hzero, zero_add] at hsum
  rw [hlist, List.map_map]
  exact hsum

/-- Claim C4: the comment sequence of each aggregated issue is exactly the
non-empty comments of the raw entries referencing that issue, in encounter
order; in particular it is empty when no such entry has a non-empty
comment. -/
theorem fetchTimeEntries_comment_sequences (resolve : Nat → Option (String × String))
    (entries : List RawEntry) (issuesList : List AggIssue) (a : AggIssue)
    (h : fetchTimeEntries resolve entries = .ok issuesList) (ha : a ∈ issuesList) :
    a.entries.map Entry.comment
        = ((entries.filter (fun e => e.issue_id == a.issue_id)).filter
            (fun e => !(e.comments == ""))).map RawEntry.comments ∧
      ((∀ e ∈ entries, e.issue_id = a.issue_id → e.comments = "") → a.entries = []) := by
  obtain ⟨m₀, hfi, hlist, hs, hP, hall⟩ := fetchTimeEntries_ok_aggregate resolve entries issuesList h
  subst hlist
  have hnd : KeysNodup (aggregateEntries m₀ entries) := by
    rw [KeysNodup, keys_aggregateEntries]
    exact hs.nodup
  have hids : ∀ p ∈ aggregateEntries m₀ entries, p.2.issue_id = p.1 :=
    aggregateEntries_preserves_ids entries m₀ (fun p hp => (hP p hp).1)
  have hlook : lookupId (aggregateEntries m₀ entries) a.issue_id = some a :=
    lookupId_of_mem_values hnd hids ha
  rw [lookupId_aggregateEntries] at hlook
  cases hm : lookupId m₀ a.issue_id with
  | none =>
    rw [hm] at hlook
    simp at hlook
  | some a₀ =>
    rw [hm, Option.map_some'] at hlook
    injection hlook with hfold
    have hents := foldl_applyEntry_entries (entries.filter (fun e => e.issue_id == a.issue_id)) a₀
    rw [hfold] at hents
    have hP₀ := hP (a.issue_id, a₀) (lookupId_some_mem hm)
    rw [hP₀.2.1, List.nil_append] at hents
    constructor
    · rw [hents, List.map_map]
      rfl
    · intro hall2
      have hnil : (entries.filter (fun e => e.issue_id == a.issue_id)).filter
          (fun e => !(e.comments == "")) = [] := by
        rw [List.filter_eq_nil_iff]
        intro e he
        have hmem := List.mem_filter.mp he
        have hcomm : e.comments = "" := hall2 e hmem.1 (by simpa using hmem.2)
        simp [hcomm]
      rw [hents, hnil]
      rfl

/-- Claim C3: the rendered report walks the category groups in
first-encounter order; each group holds exactly the input issues of that
category, and the renderer presents each group sorted ascending by issue
id (a permutation of the group, so no issue is lost whatever the input
order); the rendering is exactly the fold over these groups. -/
theorem renderWeeklyHTML_grouping (list : List AggIssue) :
    (timeEntriesToGroup list).map Prod.fst = firstEncounteredTypes list ∧
    (∀ p ∈ timeEntriesToGroup list, p.2 = list.filter (fun x => x.type == p.1)) ∧
    (∀ p ∈ timeEntriesToGroup list,
      List.Sorted issueIdLE (sortByIssueId p.2) ∧ (sortByIssueId p.2).Perm p.2) ∧
    renderWeeklyHTML list
      = (timeEntriesToGroup list).foldl
          (fun html g =>
            html ++ "<h4>" ++ g.1 ++ "</h4>\n" ++ "<ul>\n" ++
              renderIssueItems (sortByIssueId g.2) 0 ++ "</ul>\n")
          "" := by
  refine ⟨?_, ?_, ?_, rfl⟩
  · rw [timeEntriesToGroup, firstEncounteredTypes]
    exact timeEntriesToGroup_fst list []
  · intro p hp
    have := timeEntriesToGroup_inv list [] [] (by simp) (by simp) (by simp) p hp
    simpa using this
  · intro p _
    exact ⟨List.sorted_insertionSort issueIdLE p.2, List.perm_insertionSort issueIdLE p.2⟩

/-- Claim C5: a two-issue run in which the aggregation stage returns the
issues in ascending issue-id order with categories "B" then "A" — not
sorted by category. The boolean comparator passed to `issuesList.sort`
never returns a negative number, so the V8 sort leaves `Object.values`
order (ascending issue id) unchanged. -/
theorem fetchTimeEntries_not_category_sorted :
    fetchTimeEntries
        (fun id => if id = 1 then some ("s1", "B") else if id = 2 then some ("s2", "A") else none)
        [⟨1, 1, ""⟩, ⟨2, 1, ""⟩]
      = .ok [⟨1, "s1", "B", [], 1⟩, ⟨2, "s2", "A", [], 1⟩] ∧
    ¬ specAggregatorOrdered [⟨1, "s1", "B", [], 1⟩, ⟨2, "s2", "A", [], 1⟩] := by
  constructor
  · simp [fetchTimeEntries, fetchIssuesById, lookupId, insertIssue, aggregateEntries,
      updateIssue, applyEntry, jsSortIssuesList]
  · intro hsorted
    rw [specAggregatorOrdered, List.pairwise_cons] at hsorted
    have := hsorted.1 ⟨2, "s2", "A", [], 1⟩ (by simp)
    rcases this with hlt | ⟨heq, _⟩
    · rw [String.lt_iff_toList_lt] at hlt
      exact absurd hlt (by decide)
    · exact absurd heq (by decide)

/-- Claim C6: when some referenced issue id is unresolvable, the whole
pipeline fails: fetchTimeEntries returns the error for an unresolvable
referenced id and the handler returns only the surfaced error message —
no partial report. -/
theorem handleSummaryRequest_issueNotFound (resolve : Nat → Option (String × String))
    (entries : List RawEntry) (aiConfigured : Bool) (summaryResult : Except Unit String)
    (h : ∃ e ∈ entries, resolve e.issue_id = none) :
    ∃ j ∈ entries.map RawEntry.issue_id, resolve j = none ∧
      fetchTimeEntries resolve entries = .error j ∧
      handleSummaryRequest resolve entries aiConfigured summaryResult
        = issueNotFoundMessage := by
  obtain ⟨e, he, hres⟩ := h
  obtain ⟨j, hj, hjres, heq⟩ := fetchIssuesById_error resolve (entries.map RawEntry.issue_id) []
    (by intro j hj; simp [lookupId] at hj)
    ⟨e.issue_id, List.mem_map_of_mem RawEntry.issue_id he, hres⟩
  have hfe : fetchTimeEntries resolve entries = .error j := by
    rw [fetchTimeEntries, heq]
  refine ⟨j, hj, hjres, hfe, ?_⟩
  rw [handleSummaryRequest, hfe]

/-- Claim C7: with no explicit window, the resolver returns the
Sunday-to-Saturday calendar week containing the current date: the start is
a Sunday, the end the Saturday six days later, the current date lies
between them, and the result carries no time-of-day component (it is
unchanged when the time of day is zeroed). -/
theorem thisWeekTimeRange_sunday_to_saturday (today : JSDate) :
    (thisWeekTimeRange today).1 ≤ today.isoDate ∧
    today.isoDate ≤ (thisWeekTimeRange today).2 ∧
    JSDate.getDay ⟨(thisWeekTimeRange today).1, 0⟩ = 0 ∧
    JSDate.getDay ⟨(thisWeekTimeRange today).2, 0⟩ = 6 ∧
    (thisWeekTimeRange today).2 = (thisWeekTimeRange today).1 + 6 ∧
    thisWeekTimeRange ⟨today.day, 0⟩ = thisWeekTimeRange today := by
  obtain ⟨d, ms⟩ := today
  refine ⟨?_, ?_, ?_, ?_, rfl, rfl⟩
  · show d + -((d + 4) % 7) ≤ d
    omega
  · show d ≤ d + -((d + 4) % 7) + 6
    omega
  · show (d + -((d + 4) % 7) + 4) % 7 = 0
    omega
  · show (d + -((d + 4) % 7) + 6 + 4) % 7 = 6
    omega

/-- Claim C8: the renderer yields the empty string on the empty aggregated
sequence, and whenever the rendered report is empty the handler replaces it
with the fixed no-work message. -/
theorem renderWeeklyHTML_empty_noWork :
    renderWeeklyHTML [] = "" ∧
    ∀ (resolve : Nat → Option (String × String)) (entries : List RawEntry)
      (aiConfigured : Bool) (summaryResult : Except Unit String)
      (issuesList : List AggIssue),
      fetchTimeEntries resolve entries = .ok issuesList →
      renderWeeklyHTML issuesList = "" →
      handleSummaryRequest resolve entries aiConfigured summaryResult = noWorkMessage := by
  constructor
  · rfl
  · intro resolve entries aiConfigured summaryResult issuesList h hempty
    rw [handleSummaryRequest, h]
    simp [hempty]

/-- Claim C9: when the optional summarization call fails, the failure is
swallowed and the handler returns exactly the rendered report, with
nothing appended. -/
theorem handleSummaryRequest_summary_failure (resolve : Nat → Option (String × String))
    (entries : List RawEntry) (aiConfigured : Bool) (issuesList : List AggIssue)
    (h : fetchTimeEntries resolve entries = .ok issuesList)
    (hne : (renderWeeklyHTML issuesList).length ≠ 0) :
    handleSummaryRequest resolve entries aiConfigured (.error ())
      = renderWeeklyHTML issuesList := by
  rw [handleSummaryRequest, h]
  simp only [if_neg hne]
  cases aiConfigured <;> simp

/-- Claim C10: the worker answers every POST with HTTP status 500, even
when the handler succeeded and the body is the rendered report. -/
theorem workerFetch_post_status_500 (resolve : Nat → Option (String × String))
    (entries : List RawEntry) (aiConfigured : Bool) (summaryResult : Except Unit String)
    (homePage : String) :
    workerFetch "POST" (handleSummaryRequest resolve entries aiConfigured summaryResult)
        homePage
      = (500, handleSummaryRequest resolve entries aiConfigured summaryResult) := by
  rw [workerFetch, if_pos rfl]

/-- Witness for claim C2 at a concrete two-issue run. -/
theorem fetchTimeEntries_conserves_hours_witness :
    ([⟨1, 2, "a"⟩, ⟨2, 3, "b"⟩] : List RawEntry) ≠ [] ∧
    fetchTimeEntries
        (fun id => if id = 1 then some ("s1", "B") else if id = 2 then some ("s2", "A") else none)
        [⟨1, 2, "a"⟩, ⟨2, 3, "b"⟩]
      = .ok [⟨1, "s1", "B", [⟨2, "a"⟩], 2⟩, ⟨2, "s2", "A", [⟨3, "b"⟩], 3⟩] ∧
    (([⟨1, "s1", "B", [⟨2, "a"⟩], 2⟩, ⟨2, "s2", "A", [⟨3, "b"⟩], 3⟩] : List AggIssue).map
        AggIssue.hours).sum
      = (([⟨1, 2, "a"⟩, ⟨2, 3, "b"⟩] : List RawEntry).map RawEntry.hours).sum :=
  ⟨by decide,
   by simp [fetchTimeEntries, fetchIssuesById, lookupId, insertIssue, aggregateEntries,
     updateIssue, applyEntry, jsSortIssuesList],
   fetchTimeEntries_conserves_hours
     (fun id => if id = 1 then some ("s1", "B") else if id = 2 then some ("s2", "A") else none)
     [⟨1, 2, "a"⟩, ⟨2, 3, "b"⟩]
     [⟨1, "s1", "B", [⟨2, "a"⟩], 2⟩, ⟨2, "s2", "A", [⟨3, "b"⟩], 3⟩]
     (by decide)
     (by simp [fetchTimeEntries, fetchIssuesById, lookupId, insertIssue, aggregateEntries,
       updateIssue, applyEntry, jsSortIssuesList])⟩

/-- Witness for claim C3 at a concrete one-category, out-of-order input. -/
theorem renderWeeklyHTML_grouping_witness :
    ("B", [⟨2, "s2", "B", [], 0⟩, ⟨1, "s1", "B", [], 0⟩])
        ∈ timeEntriesToGroup [⟨2, "s2", "B", [], 0⟩, ⟨1, "s1", "B", [], 0⟩] ∧
    ([⟨2, "s2", "B", [], 0⟩, ⟨1, "s1", "B", [], 0⟩] : List AggIssue)
        = ([⟨2, "s2", "B", [], 0⟩, ⟨1, "s1", "B", [], 0⟩] : List AggIssue).filter
            (fun x => x.type == "B") ∧
    List.Sorted issueIdLE
      (sortByIssueId [⟨2, "s2", "B", [], 0⟩, ⟨1, "s1", "B", [], 0⟩]) ∧
    (sortByIssueId [⟨2, "s2", "B", [], 0⟩, ⟨1, "s1", "B", [], 0⟩]).Perm
      [⟨2, "s2", "B", [], 0⟩, ⟨1, "s1", "B", [], 0⟩] := by
  have h := renderWeeklyHTML_grouping [⟨2, "s2", "B", [], 0⟩, ⟨1, "s1", "B", [], 0⟩]
  have hmem : ("B", [⟨2, "s2", "B", [], 0⟩, ⟨1, "s1", "B", [], 0⟩])
      ∈ timeEntriesToGroup [⟨2, "s2", "B", [], 0⟩, ⟨1, "s1", "B", [], 0⟩] := by decide
  exact ⟨hmem, h.2.1 _ hmem, (h.2.2.1 _ hmem).1, (h.2.2.1 _ hmem).2⟩

/-- Witness for claim C4 at the worked scenario of the specification. -/
theorem fetchTimeEntries_comment_sequences_witness :
    fetchTimeEntries
        (fun id => if id = 1 then some ("Crash on save", "Bug")
                   else if id = 2 then some ("Docs pass", "Feature") else none)
        [⟨1, 2, "fixed bug"⟩, ⟨1, 0, ""⟩, ⟨2, 3, "wrote docs"⟩]
      = .ok [⟨1, "Crash on save", "Bug", [⟨2, "fixed bug"⟩], 2⟩,
             ⟨2, "Docs pass", "Feature", [⟨3, "wrote docs"⟩], 3⟩] ∧
    (⟨1, "Crash on save", "Bug", [⟨2, "fixed bug"⟩], 2⟩ : AggIssue)
        ∈ [(⟨1, "Crash on save", "Bug", [⟨2, "fixed bug"⟩], 2⟩ : AggIssue),
           ⟨2, "Docs pass", "Feature", [⟨3, "wrote docs"⟩], 3⟩] ∧
    ((⟨1, "Crash on save", "Bug", [⟨2, "fixed bug"⟩], 2⟩ : AggIssue).entries.map Entry.comment
        = ((([⟨1, 2, "fixed bug"⟩, ⟨1, 0, ""⟩, ⟨2, 3, "wrote docs"⟩] : List RawEntry).filter
              (fun e => e.issue_id
                == (⟨1, "Crash on save", "Bug", [⟨2, "fixed bug"⟩], 2⟩ : AggIssue).issue_id)).filter
            (fun e => !(e.comments == ""))).map RawEntry.comments ∧
      ((∀ e ∈ ([⟨1, 2, "fixed bug"⟩, ⟨1, 0, ""⟩, ⟨2, 3, "wrote docs"⟩] : List RawEntry),
          e.issue_id = (⟨1, "Crash on save", "Bug", [⟨2, "fixed bug"⟩], 2⟩ : AggIssue).issue_id →
          e.comments = "") →
        (⟨1, "Crash on save", "Bug", [⟨2, "fixed bug"⟩], 2⟩ : AggIssue).entries = [])) :=
  ⟨by simp [fetchTimeEntries, fetchIssuesById, lookupId, insertIssue, aggregateEntries,
     updateIssue, applyEntry, jsSortIssuesList],
   by decide,
   fetchTimeEntries_comment_sequences
     (fun id => if id = 1 then some ("Crash on save", "Bug")
                else if id = 2 then some ("Docs pass", "Feature") else none)
     [⟨1, 2, "fixed bug"⟩, ⟨1, 0, ""⟩, ⟨2, 3, "wrote docs"⟩]
     [⟨1, "Crash on save", "Bug", [⟨2, "fixed bug"⟩], 2⟩,
      ⟨2, "Docs pass", "Feature", [⟨3, "wrote docs"⟩], 3⟩]
     ⟨1, "Crash on save", "Bug", [⟨2, "fixed bug"⟩], 2⟩
     (by simp [fetchTimeEntries, fetchIssuesById, lookupId, insertIssue, aggregateEntries,
       updateIssue, applyEntry, jsSortIssuesList])
     (by decide)⟩

/-- Witness for claim C6 at a run whose only referenced id is unresolvable. -/
theorem handleSummaryRequest_issueNotFound_witness :
    (∃ e ∈ ([⟨7, 1, "x"⟩] : List RawEntry),
        (fun _ : Nat => (none : Option (String × String))) e.issue_id = none) ∧
    (∃ j ∈ ([⟨7, 1, "x"⟩] : List RawEntry).map RawEntry.issue_id,
        (fun _ : Nat => (none : Option (String × String))) j = none ∧
        fetchTimeEntries (fun _ : Nat => none) [⟨7, 1, "x"⟩] = .error j ∧
        handleSummaryRequest (fun _ : Nat => none) [⟨7, 1, "x"⟩] true (.ok "s")
          = issueNotFoundMessage) :=
  ⟨⟨⟨7, 1, "x"⟩, by decide, rfl⟩,
   handleSummaryRequest_issueNotFound (fun _ : Nat => none) [⟨7, 1, "x"⟩] true (.ok "s")
     ⟨⟨7, 1, "x"⟩, by decide, rfl⟩⟩

/-- Witness for claim C8 at the empty run. -/
theorem renderWeeklyHTML_empty_noWork_witness :
    fetchTimeEntries (fun _ : Nat => none) [] = .ok [] ∧
    renderWeeklyHTML [] = "" ∧
    handleSummaryRequest (fun _ : Nat => none) [] false (.ok "s") = noWorkMessage :=
  ⟨rfl, rfl, renderWeeklyHTML_empty_noWork.2 _ _ _ _ _ rfl rfl⟩

/-- Witness for claim C9 at a one-issue run whose summarization call
rejects. -/
theorem handleSummaryRequest_summary_failure_witness :
    fetchTimeEntries (fun _ : Nat => some ("s", "T")) [⟨1, 2, "c"⟩]
      = .ok [⟨1, "s", "T", [⟨2, "c"⟩], 2⟩] ∧
    (renderWeeklyHTML [⟨1, "s", "T", [⟨2, "c"⟩], 2⟩]).length ≠ 0 ∧
    handleSummaryRequest (fun _ : Nat => some ("s", "T")) [⟨1, 2, "c"⟩] true (.error ())
      = renderWeeklyHTML [⟨1, "s", "T", [⟨2, "c"⟩], 2⟩] :=
  ⟨by simp [fetchTimeEntries, fetchIssuesById, lookupId, insertIssue, aggregateEntries,
     updateIssue, applyEntry, jsSortIssuesList],
   by decide,
   handleSummaryRequest_summary_failure (fun _ : Nat => some ("s", "T")) [⟨1, 2, "c"⟩] true
     [⟨1, "s", "T", [⟨2, "c"⟩], 2⟩]
     (by simp [fetchTimeEntries, fetchIssuesById, lookupId, insertIssue, aggregateEntries,
       updateIssue, applyEntry, jsSortIssuesList])
     (by decide)⟩
